import Mathlib

/-!
Shallow embedding, over exact real arithmetic, of the microfacet BSDF
routines in Framework/Source/ShadingUtils/BSDFs.h (Fresnel terms, normal
distribution functions, Smith shadowing/masking, and Beckmann/GGX
importance sampling), together with theorems checking the claims made by
the specification about them.  Each definition mirrors one source function; named
helper definitions stand for intermediate locals of the source so that
the theorems can speak about them.
-/

noncomputable section

/-- Two-component real vector, modelling the shader type vec2. -/
structure Vec2 where
  x : ℝ
  y : ℝ

/-- Three-component real vector, modelling the shader type vec3. -/
structure Vec3 where
  x : ℝ
  y : ℝ
  z : ℝ

/-- Dot product of two vec3 values. -/
def dot3 (a b : Vec3) : ℝ := a.x * b.x + a.y * b.y + a.z * b.z

/-- HLSL saturate: clamp a scalar to the unit interval. -/
def saturate (x : ℝ) : ℝ := min 1 (max 0 x)

/-- Intermediate R0 of dielectricFresnelSchlick (BSDFs.h line 45). -/
def schlickR0 (IoR : ℝ) : ℝ := ((1 - IoR) / (1 + IoR)) * ((1 - IoR) / (1 + IoR))

/-- Schlick approximation for reflection of a dielectric (BSDFs.h lines 43-49). -/
def dielectricFresnelSchlick (VdH IoR : ℝ) : ℝ :=
  schlickR0 IoR
    + (1 - schlickR0 IoR) * (1 - VdH) * ((1 - VdH) * (1 - VdH))
      * ((1 - VdH) * (1 - VdH))

/-- Intermediate realIoR of dielectricFresnel (BSDFs.h line 68). -/
def fresnelRealIoR (NdE IoR : ℝ) : ℝ := if NdE ≥ 0 then 1 / IoR else IoR

/-- Intermediate NdL2 of dielectricFresnel (BSDFs.h line 70): the radicand
of the refraction. -/
def fresnelNdL2 (NdE IoR : ℝ) : ℝ :=
  1 - fresnelRealIoR NdE IoR * fresnelRealIoR NdE IoR * (1 - NdE * NdE)

/-- Intermediate Rp of dielectricFresnel (BSDFs.h line 75).  NdE has been
replaced by its absolute value as in line 74. -/
def fresnelRp (NdE IoR : ℝ) : ℝ :=
  (IoR * Real.sqrt (fresnelNdL2 NdE IoR) - |NdE|) /
    (IoR * Real.sqrt (fresnelNdL2 NdE IoR) + |NdE|)

/-- Intermediate Rs of dielectricFresnel (BSDFs.h line 76). -/
def fresnelRs (NdE IoR : ℝ) : ℝ :=
  (|NdE| - IoR * Real.sqrt (fresnelNdL2 NdE IoR)) /
    (|NdE| + IoR * Real.sqrt (fresnelNdL2 NdE IoR))

/-- Full non-polarized dielectric Fresnel factor (BSDFs.h lines 66-78). -/
def dielectricFresnel (NdE IoR : ℝ) : ℝ :=
  if fresnelNdL2 NdE IoR ≤ 0 then 1
  else (fresnelRp NdE IoR * fresnelRp NdE IoR
    + fresnelRs NdE IoR * fresnelRs NdE IoR) * 0.5

/-- Exponent argument of the isotropic Beckmann NDF (BSDFs.h line 130),
clamped to be non-negative by the max taken in the source. -/
def beckmannIsoExponent (N H : Vec3) (roughness : ℝ) : ℝ :=
  max 0 ((1 - dot3 N H * dot3 N H) / (roughness * roughness * (dot3 N H * dot3 N H)))

/-- Isotropic Beckmann NDF (BSDFs.h lines 123-132). -/
def evalBeckmannDistribution (N H : Vec3) (roughness : ℝ) : ℝ :=
  Real.exp (-beckmannIsoExponent N H roughness) /
    (Real.pi * (roughness * roughness) * (dot3 N H * dot3 N H) * (dot3 N H * dot3 N H))

/-- Exponent argument of the anisotropic Beckmann NDF (BSDFs.h line 139). -/
def beckmannAnisoExponent (H : Vec3) (rgns : Vec2) : ℝ :=
  (H.x / (rgns.x * rgns.x) * H.x + H.y / (rgns.y * rgns.y) * H.y) / (H.z * H.z)

/-- Anisotropic Beckmann NDF (BSDFs.h lines 134-141). -/
def evalBeckmannDistributionAniso (H : Vec3) (rgns : Vec2) : ℝ :=
  Real.exp (-beckmannAnisoExponent H rgns) /
    (Real.pi * rgns.x * rgns.y * (H.z * H.z) * (H.z * H.z))

/-- Denominator core of the isotropic GGX NDF (BSDFs.h line 179). -/
def ggxDdenom (N H : Vec3) (roughness : ℝ) : ℝ :=
  (saturate (dot3 N H) * (roughness * roughness) - saturate (dot3 N H))
    * saturate (dot3 N H) + 1

/-- Isotropic GGX NDF (BSDFs.h lines 172-182). -/
def evalGGXDistribution (N H : Vec3) (roughness : ℝ) : ℝ :=
  roughness * roughness / (Real.pi * ggxDdenom N H roughness * ggxDdenom N H roughness)

/-- Anisotropy ratio along U of the anisotropic GGX NDF (BSDFs.h line 187). -/
def ggxAnisoU (rgns : Vec2) : ℝ := if rgns.y < rgns.x then rgns.y / rgns.x else 1

/-- Anisotropy ratio along V of the anisotropic GGX NDF (BSDFs.h line 188). -/
def ggxAnisoV (rgns : Vec2) : ℝ := if rgns.x < rgns.y then rgns.x / rgns.y else 1

/-- Intermediate root of the anisotropic GGX NDF (BSDFs.h line 193). -/
def ggxAnisoRoot (H : Vec3) (rgns : Vec2) : ℝ :=
  H.z * H.z * (min rgns.x rgns.y * min rgns.x rgns.y) +
    (H.x / (ggxAnisoU rgns * ggxAnisoU rgns) * H.x +
      H.y / (ggxAnisoV rgns * ggxAnisoV rgns) * H.y)

/-- Anisotropic GGX NDF (BSDFs.h lines 184-195). -/
def evalGGXDistributionAniso (H : Vec3) (rgns : Vec2) : ℝ :=
  min rgns.x rgns.y * min rgns.x rgns.y /
    (Real.pi * ggxAnisoU rgns * ggxAnisoV rgns
      * ggxAnisoRoot H rgns * ggxAnisoRoot H rgns)

/-- Divisor that effectiveVisibleRoughness divides by (BSDFs.h line 209):
one minus the square of the z component of the direction. -/
def effDivisor (dir : Vec3) : ℝ := 1 - dir.z * dir.z

/-- Effective visible roughness along a direction (BSDFs.h lines 207-214). -/
def effectiveVisibleRoughness (dir : Vec3) (rghns : Vec2) : ℝ :=
  Real.sqrt (rghns.x * rghns.x * (dir.x * dir.x * (1 / effDivisor dir)) +
    rghns.y * rghns.y * (dir.y * dir.y * (1 / effDivisor dir)))

/-- Modelled from the spec: the NDF-type identifier selecting the Beckmann
branch inside GSmith.  The constant is declared outside the sources of this
repository; only the dispatch on it matters, so its concrete value is chosen
arbitrarily here. -/
def NDFBeckmann : ℕ := 0

/-- Intermediate isectRoot of GSmith (BSDFs.h lines 231-232 and 244):
effective visible roughness times the slope of the direction. -/
def gSmithIsectRoot (dir : Vec3) (rghns : Vec2) : ℝ :=
  effectiveVisibleRoughness dir rghns * (Real.sqrt (1 - dir.z * dir.z) / dir.z)

/-- Rational polynomial fit for the Beckmann Smith term (BSDFs.h line 240). -/
def gSmithBeckmannFit (a : ℝ) : ℝ :=
  (3.535 * a + 2.181 * (a * a)) / (1 + 2.276 * a + 2.577 * (a * a))

/-- Smith shadowing/masking term from a single direction (BSDFs.h
lines 224-246). -/
def GSmith (dir h : Vec3) (rghns : Vec2) (ndfType : ℕ) : ℝ :=
  if dot3 dir h * dir.z ≤ 0 then 0
  else if 1 - dir.z * dir.z ≤ 0 then 1
  else if ndfType = NDFBeckmann then
    if 1 / gSmithIsectRoot dir rghns > 1.6 then 1
    else gSmithBeckmannFit (1 / gSmithIsectRoot dir rghns)
  else 2 / (1 + Real.sqrt (1 * 1 + gSmithIsectRoot dir rghns * gSmithIsectRoot dir rghns))

/-- Result record of the sampling routines: the three output parameters m,
wi, and pdf together with the returned weight. -/
structure SampleResult where
  m : Vec3
  wi : Vec3
  pdf : ℝ
  weight : ℝ

/-- Clamp of the half-vector pdf performed by both samplers (BSDFs.h
lines 303-304 and 360-361): values below 1e-20 become exactly 0. -/
def clampPdf (p : ℝ) : ℝ := if p < 1e-20 then 0 else p

/-- Cosine of the sampled polar angle from the sampled squared tangent
(BSDFs.h lines 297 and 353). -/
def cosThetaOf (tanThetaMSqr : ℝ) : ℝ := 1 / Real.sqrt (1 + tanThetaMSqr)

/-- Sampled microfacet normal built from the azimuth random number and the
sampled polar cosine (BSDFs.h lines 291-293, 307-311 and 347-349, 364-368). -/
def microNormal (rSample : Vec2) (cosThetaM : ℝ) : Vec3 :=
  ⟨Real.sqrt (max 0 (1 - cosThetaM * cosThetaM)) * Real.cos (2 * Real.pi * rSample.y),
   Real.sqrt (max 0 (1 - cosThetaM * cosThetaM)) * Real.sin (2 * Real.pi * rSample.y),
   cosThetaM⟩

/-- Specular reflection of the outgoing direction about the microfacet
normal (BSDFs.h lines 314 and 371). -/
def reflectAbout (wo m : Vec3) : Vec3 :=
  ⟨-wo.x - 2 * dot3 ⟨-wo.x, -wo.y, -wo.z⟩ m * m.x,
   -wo.y - 2 * dot3 ⟨-wo.x, -wo.y, -wo.z⟩ m * m.y,
   -wo.z - 2 * dot3 ⟨-wo.x, -wo.y, -wo.z⟩ m * m.z⟩

/-- Sampled squared tangent of the Beckmann polar angle (BSDFs.h line 296). -/
def beckmannTanThetaMSqr (roughness rSample : Vec2) : ℝ :=
  roughness.x * roughness.x * -Real.log (1 - rSample.x)

/-- Half-vector-space probability density of the Beckmann sampler before
the clamp and before the Jacobian correction (BSDFs.h line 300). -/
def beckmannPdfH (roughness rSample : Vec2) : ℝ :=
  (1 - rSample.x) / (Real.pi * roughness.x * roughness.y
    * cosThetaOf (beckmannTanThetaMSqr roughness rSample)
    * cosThetaOf (beckmannTanThetaMSqr roughness rSample)
    * cosThetaOf (beckmannTanThetaMSqr roughness rSample))

/-- Sampled microfacet normal of the Beckmann sampler (BSDFs.h
lines 307-311). -/
def beckmannM (roughness rSample : Vec2) : Vec3 :=
  microNormal rSample (cosThetaOf (beckmannTanThetaMSqr roughness rSample))

/-- Reflected incident direction of the Beckmann sampler (BSDFs.h
line 314). -/
def beckmannWi (wo : Vec3) (roughness rSample : Vec2) : Vec3 :=
  reflectAbout wo (beckmannM roughness rSample)

/-- Beckmann importance sampling (BSDFs.h lines 280-324).  The returned
record carries the three output parameters and the returned weight. -/
def sampleBeckmannDistribution (wo : Vec3) (roughness rSample : Vec2) : SampleResult :=
  if (beckmannWi wo roughness rSample).z ≤ 0 ∨ clampPdf (beckmannPdfH roughness rSample) ≤ 0 then
    ⟨beckmannM roughness rSample, beckmannWi wo roughness rSample,
      clampPdf (beckmannPdfH roughness rSample), 0⟩
  else
    ⟨beckmannM roughness rSample, beckmannWi wo roughness rSample,
      clampPdf (beckmannPdfH roughness rSample) /
        (4 * dot3 (beckmannWi wo roughness rSample) (beckmannM roughness rSample)),
      evalBeckmannDistributionAniso (beckmannM roughness rSample) roughness *
        dot3 wo (beckmannM roughness rSample) /
        (clampPdf (beckmannPdfH roughness rSample) * wo.z)⟩

/-- Sampled squared tangent of the GGX polar angle (BSDFs.h line 352). -/
def ggxTanThetaMSqr (roughness rSample : Vec2) : ℝ :=
  roughness.x * roughness.x * rSample.x / (1 - rSample.x)

/-- Half-vector-space probability density of the GGX sampler before the
clamp and before the Jacobian correction (BSDFs.h lines 356-357). -/
def ggxPdfH (roughness rSample : Vec2) : ℝ :=
  (1 / Real.pi) / (roughness.x * roughness.y
    * cosThetaOf (ggxTanThetaMSqr roughness rSample)
    * cosThetaOf (ggxTanThetaMSqr roughness rSample)
    * cosThetaOf (ggxTanThetaMSqr roughness rSample)
    * (1 + ggxTanThetaMSqr roughness rSample / (roughness.x * roughness.x))
    * (1 + ggxTanThetaMSqr roughness rSample / (roughness.x * roughness.x)))

/-- Sampled microfacet normal of the GGX sampler (BSDFs.h lines 364-368). -/
def ggxM (roughness rSample : Vec2) : Vec3 :=
  microNormal rSample (cosThetaOf (ggxTanThetaMSqr roughness rSample))

/-- Reflected incident direction of the GGX sampler (BSDFs.h line 371). -/
def ggxWi (wo : Vec3) (roughness rSample : Vec2) : Vec3 :=
  reflectAbout wo (ggxM roughness rSample)

/-- GGX importance sampling (BSDFs.h lines 336-383). -/
def sampleGGXDistribution (wo : Vec3) (roughness rSample : Vec2) : SampleResult :=
  if (ggxWi wo roughness rSample).z ≤ 0 ∨ clampPdf (ggxPdfH roughness rSample) ≤ 0 then
    ⟨ggxM roughness rSample, ggxWi wo roughness rSample,
      clampPdf (ggxPdfH roughness rSample), 0⟩
  else
    ⟨ggxM roughness rSample, ggxWi wo roughness rSample,
      clampPdf (ggxPdfH roughness rSample) /
        (4 * dot3 (ggxWi wo roughness rSample) (ggxM roughness rSample)),
      evalGGXDistributionAniso (ggxM roughness rSample) roughness *
        dot3 wo (ggxM roughness rSample) /
        (clampPdf (ggxPdfH roughness rSample) * wo.z)⟩

/-- Helper: positivity of the sampled polar cosine for a non-negative
squared tangent. -/
theorem cosThetaOf_pos (t : ℝ) (ht : 0 ≤ t) : 0 < cosThetaOf t := by
  unfold cosThetaOf
  have h1 : (0:ℝ) < 1 + t := by linarith
  have h2 : 0 < Real.sqrt (1 + t) := Real.sqrt_pos.mpr h1
  positivity

/-- Helper: the sampled polar cosine is at most one. -/
theorem cosThetaOf_le_one (t : ℝ) (ht : 0 ≤ t) : cosThetaOf t ≤ 1 := by
  unfold cosThetaOf
  have h1 : (1:ℝ) ≤ Real.sqrt (1 + t) := by
    have h := Real.sqrt_le_sqrt (show (1:ℝ) ≤ 1 + t by linarith)
    rwa [Real.sqrt_one] at h
  rw [div_le_one (by linarith)]
  exact h1

/-- Helper: square of the sampled polar cosine. -/
theorem cosThetaOf_sq (t : ℝ) (ht : 0 ≤ t) :
    cosThetaOf t * cosThetaOf t = 1 / (1 + t) := by
  unfold cosThetaOf
  rw [div_mul_div_comm, Real.mul_self_sqrt (by linarith), one_mul]

/-- Helper: the z component of the sampled microfacet normal. -/
theorem microNormal_z (s : Vec2) (c : ℝ) : (microNormal s c).z = c := rfl

/-- Helper: the sampled microfacet normal is a unit vector whenever the
polar cosine has square at most one. -/
theorem microNormal_unit (s : Vec2) (c : ℝ) (hc : c * c ≤ 1) :
    (microNormal s c).x * (microNormal s c).x
      + (microNormal s c).y * (microNormal s c).y
      + (microNormal s c).z * (microNormal s c).z = 1 := by
  have hsq : Real.sqrt (max 0 (1 - c * c)) * Real.sqrt (max 0 (1 - c * c))
      = 1 - c * c := by
    rw [max_eq_right (by linarith)]
    exact Real.mul_self_sqrt (by linarith)
  have htrig : Real.sin (2 * Real.pi * s.y) * Real.sin (2 * Real.pi * s.y)
      + Real.cos (2 * Real.pi * s.y) * Real.cos (2 * Real.pi * s.y) = 1 := by
    have h := Real.sin_sq_add_cos_sq (2 * Real.pi * s.y)
    linear_combination h
  unfold microNormal
  dsimp only
  linear_combination (Real.sin (2 * Real.pi * s.y) * Real.sin (2 * Real.pi * s.y)
      + Real.cos (2 * Real.pi * s.y) * Real.cos (2 * Real.pi * s.y)) * hsq
    + (1 - c * c) * htrig

/-- Helper: dot product of the reflected direction with the microfacet
normal, for a unit microfacet normal. -/
theorem dot3_reflectAbout (wo m : Vec3)
    (hm : m.x * m.x + m.y * m.y + m.z * m.z = 1) :
    dot3 (reflectAbout wo m) m = -dot3 ⟨-wo.x, -wo.y, -wo.z⟩ m := by
  unfold reflectAbout dot3
  dsimp only
  linear_combination (-2 * (-wo.x * m.x + -wo.y * m.y + -wo.z * m.z)) * hm

/-- Helper: z component of the reflection of a vertical outgoing direction
about a sampled microfacet normal. -/
theorem reflect_vertical_z (w : ℝ) (s : Vec2) (c : ℝ) :
    (reflectAbout ⟨0, 0, w⟩ (microNormal s c)).z = w * (2 * (c * c) - 1) := by
  unfold reflectAbout microNormal dot3
  dsimp only
  ring

/-- Helper: dot product of a vertical vector with any vector. -/
theorem dot3_vertical (w : ℝ) (m : Vec3) : dot3 ⟨0, 0, w⟩ m = w * m.z := by
  unfold dot3
  dsimp only
  ring

/-- Helper: dot product of the reflection of a vertical outgoing
direction with a unit microfacet normal. -/
theorem dot3_reflect_vertical (w : ℝ) (m : Vec3)
    (hm : m.x * m.x + m.y * m.y + m.z * m.z = 1) :
    dot3 (reflectAbout ⟨0, 0, w⟩ m) m = w * m.z := by
  rw [dot3_reflectAbout ⟨0, 0, w⟩ m hm]
  unfold dot3
  dsimp only
  ring

/-- Helper: the pdf clamp is the identity at or above the threshold. -/
theorem clampPdf_of_ge (p : ℝ) (h : 1e-20 ≤ p) : clampPdf p = p := by
  unfold clampPdf
  rw [if_neg (not_lt.mpr h)]

/-- Helper: the Beckmann sampler on the failure path. -/
theorem sampleBeckmann_fail (wo : Vec3) (roughness rSample : Vec2)
    (h : (beckmannWi wo roughness rSample).z ≤ 0 ∨
      clampPdf (beckmannPdfH roughness rSample) ≤ 0) :
    sampleBeckmannDistribution wo roughness rSample =
      ⟨beckmannM roughness rSample, beckmannWi wo roughness rSample,
        clampPdf (beckmannPdfH roughness rSample), 0⟩ := by
  unfold sampleBeckmannDistribution
  rw [if_pos h]

/-- Helper: the Beckmann sampler on the success path. -/
theorem sampleBeckmann_success (wo : Vec3) (roughness rSample : Vec2)
    (h1 : 0 < (beckmannWi wo roughness rSample).z)
    (h2 : 0 < clampPdf (beckmannPdfH roughness rSample)) :
    sampleBeckmannDistribution wo roughness rSample =
      ⟨beckmannM roughness rSample, beckmannWi wo roughness rSample,
        clampPdf (beckmannPdfH roughness rSample) /
          (4 * dot3 (beckmannWi wo roughness rSample) (beckmannM roughness rSample)),
        evalBeckmannDistributionAniso (beckmannM roughness rSample) roughness *
          dot3 wo (beckmannM roughness rSample) /
          (clampPdf (beckmannPdfH roughness rSample) * wo.z)⟩ := by
  unfold sampleBeckmannDistribution
  rw [if_neg]
  push_neg
  exact ⟨h1, h2⟩

/-- Helper: the GGX sampler on the failure path. -/
theorem sampleGGX_fail (wo : Vec3) (roughness rSample : Vec2)
    (h : (ggxWi wo roughness rSample).z ≤ 0 ∨
      clampPdf (ggxPdfH roughness rSample) ≤ 0) :
    sampleGGXDistribution wo roughness rSample =
      ⟨ggxM roughness rSample, ggxWi wo roughness rSample,
        clampPdf (ggxPdfH roughness rSample), 0⟩ := by
  unfold sampleGGXDistribution
  rw [if_pos h]

/-- Helper: the GGX sampler on the success path. -/
theorem sampleGGX_success (wo : Vec3) (roughness rSample : Vec2)
    (h1 : 0 < (ggxWi wo roughness rSample).z)
    (h2 : 0 < clampPdf (ggxPdfH roughness rSample)) :
    sampleGGXDistribution wo roughness rSample =
      ⟨ggxM roughness rSample, ggxWi wo roughness rSample,
        clampPdf (ggxPdfH roughness rSample) /
          (4 * dot3 (ggxWi wo roughness rSample) (ggxM roughness rSample)),
        evalGGXDistributionAniso (ggxM roughness rSample) roughness *
          dot3 wo (ggxM roughness rSample) /
          (clampPdf (ggxPdfH roughness rSample) * wo.z)⟩ := by
  unfold sampleGGXDistribution
  rw [if_neg]
  push_neg
  exact ⟨h1, h2⟩

/-- Helper: concrete sampled squared tangent of the GGX sampler at the
standard sample point. -/
theorem ggxTan_std : ggxTanThetaMSqr ⟨1/2, 1/2⟩ ⟨1/2, 0⟩ = 1/4 := by
  unfold ggxTanThetaMSqr
  norm_num

/-- Helper: concrete sampled squared tangent of the Beckmann sampler at
the standard sample point. -/
theorem beckmannTan_std :
    beckmannTanThetaMSqr ⟨1/2, 1/2⟩ ⟨1/2, 0⟩ = Real.log 2 / 4 := by
  unfold beckmannTanThetaMSqr
  dsimp only
  rw [show (1:ℝ) - 1/2 = 2⁻¹ by norm_num, Real.log_inv]
  ring

/-- Helper: the natural logarithm of two lies strictly between 0 and 1. -/
theorem log_two_bounds : 0 < Real.log 2 ∧ Real.log 2 ≤ 1 :=
  ⟨Real.log_pos (by norm_num),
   by linarith [Real.log_le_sub_one_of_pos (by norm_num : (0:ℝ) < 2)]⟩

/-- Helper: concrete half-vector pdf of the GGX sampler at the standard
sample point. -/
theorem ggxPdfH_std : ggxPdfH ⟨1/2, 1/2⟩ ⟨1/2, 0⟩ =
    1 / Real.pi / (cosThetaOf (1/4) * cosThetaOf (1/4) * cosThetaOf (1/4)) := by
  unfold ggxPdfH
  rw [ggxTan_std]
  dsimp only
  have hc : cosThetaOf (1/4) ≠ 0 := ne_of_gt (cosThetaOf_pos _ (by norm_num))
  have hpi := Real.pi_ne_zero
  field_simp
  ring

/-- Helper: concrete half-vector pdf of the Beckmann sampler at the
standard sample point. -/
theorem beckmannPdfH_std : beckmannPdfH ⟨1/2, 1/2⟩ ⟨1/2, 0⟩ =
    2 / Real.pi / (cosThetaOf (Real.log 2 / 4) * cosThetaOf (Real.log 2 / 4)
      * cosThetaOf (Real.log 2 / 4)) := by
  unfold beckmannPdfH
  rw [beckmannTan_std]
  dsimp only
  have hc : cosThetaOf (Real.log 2 / 4) ≠ 0 :=
    ne_of_gt (cosThetaOf_pos _ (by positivity))
  have hpi := Real.pi_ne_zero
  field_simp
  ring

/-- Helper: the cube of a polar cosine for a non-negative tangent is
positive and at most one. -/
theorem cosCube_bounds (t : ℝ) (ht : 0 ≤ t) :
    0 < cosThetaOf t * cosThetaOf t * cosThetaOf t ∧
      cosThetaOf t * cosThetaOf t * cosThetaOf t ≤ 1 := by
  have h0 := cosThetaOf_pos t ht
  have h1 := cosThetaOf_le_one t ht
  constructor
  · positivity
  · nlinarith

/-- Helper: lower bound on the GGX half-vector pdf at the standard sample
point. -/
theorem ggxPdfH_std_ge : 1/4 ≤ ggxPdfH ⟨1/2, 1/2⟩ ⟨1/2, 0⟩ := by
  rw [ggxPdfH_std, div_div]
  have hb := cosCube_bounds (1/4) (by norm_num)
  have hD : 0 < Real.pi * (cosThetaOf (1/4) * cosThetaOf (1/4) * cosThetaOf (1/4)) :=
    mul_pos Real.pi_pos hb.1
  rw [le_div_iff₀ hD]
  nlinarith [Real.pi_le_four, Real.pi_pos, hb.1, hb.2]

/-- Helper: lower bound on the Beckmann half-vector pdf at the standard
sample point. -/
theorem beckmannPdfH_std_ge : 1/2 ≤ beckmannPdfH ⟨1/2, 1/2⟩ ⟨1/2, 0⟩ := by
  rw [beckmannPdfH_std, div_div]
  have hlog : (0:ℝ) ≤ Real.log 2 / 4 := by positivity
  have hb := cosCube_bounds (Real.log 2 / 4) hlog
  have hD : 0 < Real.pi * (cosThetaOf (Real.log 2 / 4) * cosThetaOf (Real.log 2 / 4)
      * cosThetaOf (Real.log 2 / 4)) := mul_pos Real.pi_pos hb.1
  rw [le_div_iff₀ hD]
  nlinarith [Real.pi_le_four, Real.pi_pos, hb.1, hb.2]

/-- Helper: the GGX pdf clamp is inactive at the standard sample point. -/
theorem ggxClamp_std : clampPdf (ggxPdfH ⟨1/2, 1/2⟩ ⟨1/2, 0⟩) =
    ggxPdfH ⟨1/2, 1/2⟩ ⟨1/2, 0⟩ :=
  clampPdf_of_ge _ (le_trans (by norm_num) ggxPdfH_std_ge)

/-- Helper: the Beckmann pdf clamp is inactive at the standard sample
point. -/
theorem beckmannClamp_std : clampPdf (beckmannPdfH ⟨1/2, 1/2⟩ ⟨1/2, 0⟩) =
    beckmannPdfH ⟨1/2, 1/2⟩ ⟨1/2, 0⟩ :=
  clampPdf_of_ge _ (le_trans (by norm_num) beckmannPdfH_std_ge)

/-- Helper: the clamped GGX pdf is positive at the standard sample point. -/
theorem ggxClamp_std_pos : 0 < clampPdf (ggxPdfH ⟨1/2, 1/2⟩ ⟨1/2, 0⟩) := by
  rw [ggxClamp_std]
  linarith [ggxPdfH_std_ge]

/-- Helper: the clamped Beckmann pdf is positive at the standard sample
point. -/
theorem beckmannClamp_std_pos : 0 < clampPdf (beckmannPdfH ⟨1/2, 1/2⟩ ⟨1/2, 0⟩) := by
  rw [beckmannClamp_std]
  linarith [beckmannPdfH_std_ge]

/-- Helper: z component of the GGX reflected direction at the standard
sample point for the outgoing direction straight up. -/
theorem ggxWi_up_z : (ggxWi ⟨0, 0, 1⟩ ⟨1/2, 1/2⟩ ⟨1/2, 0⟩).z = 3/5 := by
  unfold ggxWi ggxM
  rw [ggxTan_std, reflect_vertical_z, cosThetaOf_sq _ (by norm_num)]
  norm_num

/-- Helper: z component of the GGX reflected direction at the standard
sample point for the outgoing direction straight down. -/
theorem ggxWi_down_z : (ggxWi ⟨0, 0, -1⟩ ⟨1/2, 1/2⟩ ⟨1/2, 0⟩).z = -(3/5) := by
  unfold ggxWi ggxM
  rw [ggxTan_std, reflect_vertical_z, cosThetaOf_sq _ (by norm_num)]
  norm_num

/-- Helper: the Beckmann reflected direction points above the surface at
the standard sample point for the outgoing direction straight up. -/
theorem beckmannWi_up_z_pos : 0 < (beckmannWi ⟨0, 0, 1⟩ ⟨1/2, 1/2⟩ ⟨1/2, 0⟩).z := by
  unfold beckmannWi beckmannM
  rw [beckmannTan_std, reflect_vertical_z, cosThetaOf_sq _ (by positivity)]
  have hl := log_two_bounds
  have ht : (0:ℝ) < 1 + Real.log 2 / 4 := by linarith [hl.1]
  have h2 : 1 < 2 * (1 / (1 + Real.log 2 / 4)) := by
    rw [mul_one_div, lt_div_iff₀ ht]
    linarith [hl.2]
  linarith

/-- Helper: the Beckmann reflected direction points below the surface at
the standard sample point for the outgoing direction straight down. -/
theorem beckmannWi_down_z_nonpos :
    (beckmannWi ⟨0, 0, -1⟩ ⟨1/2, 1/2⟩ ⟨1/2, 0⟩).z ≤ 0 := by
  unfold beckmannWi beckmannM
  rw [beckmannTan_std, reflect_vertical_z, cosThetaOf_sq _ (by positivity)]
  have hl := log_two_bounds
  have ht : (0:ℝ) < 1 + Real.log 2 / 4 := by linarith [hl.1]
  have h2 : 1 ≤ 2 * (1 / (1 + Real.log 2 / 4)) := by
    rw [mul_one_div, le_div_iff₀ ht]
    linarith [hl.2]
  nlinarith

/-- Helper: the GGX microfacet normal at the standard sample point is a
unit vector. -/
theorem ggxM_std_unit :
    (ggxM ⟨1/2, 1/2⟩ ⟨1/2, 0⟩).x * (ggxM ⟨1/2, 1/2⟩ ⟨1/2, 0⟩).x
      + (ggxM ⟨1/2, 1/2⟩ ⟨1/2, 0⟩).y * (ggxM ⟨1/2, 1/2⟩ ⟨1/2, 0⟩).y
      + (ggxM ⟨1/2, 1/2⟩ ⟨1/2, 0⟩).z * (ggxM ⟨1/2, 1/2⟩ ⟨1/2, 0⟩).z = 1 := by
  unfold ggxM
  apply microNormal_unit
  have h0 := cosThetaOf_pos (ggxTanThetaMSqr ⟨1/2, 1/2⟩ ⟨1/2, 0⟩) (by rw [ggxTan_std]; norm_num)
  have h1 := cosThetaOf_le_one (ggxTanThetaMSqr ⟨1/2, 1/2⟩ ⟨1/2, 0⟩) (by rw [ggxTan_std]; norm_num)
  nlinarith

/-- Helper: the Beckmann microfacet normal at the standard sample point is
a unit vector. -/
theorem beckmannM_std_unit :
    (beckmannM ⟨1/2, 1/2⟩ ⟨1/2, 0⟩).x * (beckmannM ⟨1/2, 1/2⟩ ⟨1/2, 0⟩).x
      + (beckmannM ⟨1/2, 1/2⟩ ⟨1/2, 0⟩).y * (beckmannM ⟨1/2, 1/2⟩ ⟨1/2, 0⟩).y
      + (beckmannM ⟨1/2, 1/2⟩ ⟨1/2, 0⟩).z * (beckmannM ⟨1/2, 1/2⟩ ⟨1/2, 0⟩).z = 1 := by
  unfold beckmannM
  apply microNormal_unit
  have hlog : (0:ℝ) ≤ beckmannTanThetaMSqr ⟨1/2, 1/2⟩ ⟨1/2, 0⟩ := by
    rw [beckmannTan_std]
    positivity
  have h0 := cosThetaOf_pos _ hlog
  have h1 := cosThetaOf_le_one _ hlog
  nlinarith

/-- Helper: z component of the GGX microfacet normal at the standard
sample point. -/
theorem ggxM_std_z : (ggxM ⟨1/2, 1/2⟩ ⟨1/2, 0⟩).z = cosThetaOf (1/4) := by
  unfold ggxM
  rw [ggxTan_std]
  rfl

/-- Helper: z component of the Beckmann microfacet normal at the standard
sample point. -/
theorem beckmannM_std_z :
    (beckmannM ⟨1/2, 1/2⟩ ⟨1/2, 0⟩).z = cosThetaOf (Real.log 2 / 4) := by
  unfold beckmannM
  rw [beckmannTan_std]
  rfl

/-- Helper: the anisotropic GGX NDF is positive at roughness one half for
a microfacet normal with non-zero z. -/
theorem ggxD_half_pos (m : Vec3) (hz : m.z ≠ 0) :
    0 < evalGGXDistributionAniso m ⟨1/2, 1/2⟩ := by
  have hU : ggxAnisoU ⟨1/2, 1/2⟩ = 1 := by simp [ggxAnisoU]
  have hV : ggxAnisoV ⟨1/2, 1/2⟩ = 1 := by simp [ggxAnisoV]
  have hzz : 0 < m.z * m.z := mul_self_pos.mpr hz
  have hroot : 0 < ggxAnisoRoot m ⟨1/2, 1/2⟩ := by
    unfold ggxAnisoRoot
    rw [hU, hV]
    dsimp only
    simp only [min_self]
    nlinarith [sq_nonneg m.x, sq_nonneg m.y]
  unfold evalGGXDistributionAniso
  rw [hU, hV]
  dsimp only
  simp only [mul_one, one_mul, min_self]
  apply div_pos
  · norm_num
  · exact mul_pos (mul_pos Real.pi_pos hroot) hroot

/-- Helper: the anisotropic Beckmann NDF is positive at roughness one
half for a microfacet normal with non-zero z. -/
theorem beckmannD_half_pos (m : Vec3) (hz : m.z ≠ 0) :
    0 < evalBeckmannDistributionAniso m ⟨1/2, 1/2⟩ := by
  have hzz : 0 < m.z * m.z := mul_self_pos.mpr hz
  unfold evalBeckmannDistributionAniso
  dsimp only
  apply div_pos (Real.exp_pos _)
  have h12 : (0:ℝ) < 1/2 := by norm_num
  exact mul_pos (mul_pos (mul_pos (mul_pos Real.pi_pos h12) h12) hzz) hzz

/-- Helper: the sampled Beckmann squared tangent is non-negative for a
random number in the unit half-open interval. -/
theorem beckmannTan_nonneg (roughness rSample : Vec2)
    (h0 : 0 ≤ rSample.x) (h1 : rSample.x < 1) :
    0 ≤ beckmannTanThetaMSqr roughness rSample := by
  unfold beckmannTanThetaMSqr
  have hl : Real.log (1 - rSample.x) ≤ 0 :=
    Real.log_nonpos (by linarith) (by linarith)
  exact mul_nonneg (mul_self_nonneg _) (by linarith)

/-- Helper: the sampled GGX squared tangent is non-negative for a random
number in the unit half-open interval. -/
theorem ggxTan_nonneg (roughness rSample : Vec2)
    (h0 : 0 ≤ rSample.x) (h1 : rSample.x < 1) :
    0 ≤ ggxTanThetaMSqr roughness rSample := by
  unfold ggxTanThetaMSqr
  exact div_nonneg (mul_nonneg (mul_self_nonneg _) h0) (by linarith)

/-- Helper: both branches of the Beckmann sampler write the same m and wi
outputs. -/
theorem sampleBeckmann_outputs (wo : Vec3) (roughness rSample : Vec2) :
    (sampleBeckmannDistribution wo roughness rSample).m = beckmannM roughness rSample ∧
    (sampleBeckmannDistribution wo roughness rSample).wi = beckmannWi wo roughness rSample := by
  unfold sampleBeckmannDistribution
  split <;> exact ⟨rfl, rfl⟩

/-- Helper: both branches of the GGX sampler write the same m and wi
outputs. -/
theorem sampleGGX_outputs (wo : Vec3) (roughness rSample : Vec2) :
    (sampleGGXDistribution wo roughness rSample).m = ggxM roughness rSample ∧
    (sampleGGXDistribution wo roughness rSample).wi = ggxWi wo roughness rSample := by
  unfold sampleGGXDistribution
  split <;> exact ⟨rfl, rfl⟩

/-- Helper: a balanced ratio of non-negative quantities has square at
most one. -/
theorem ratioSqLeOne (a b : ℝ) (ha : 0 ≤ a) (hb : 0 ≤ b) (hab : 0 < a + b) :
    ((a - b) / (a + b)) * ((a - b) / (a + b)) ≤ 1 := by
  rw [div_mul_div_comm, div_le_one (mul_pos hab hab)]
  nlinarith

/-- Claim C2: for IoR > 0 and a cosine in the unit interval, both
dielectricFresnelSchlick and dielectricFresnel return values in the unit
interval. -/
theorem claim2_fresnel_unit_interval (c IoR : ℝ) (hIoR : 0 < IoR)
    (hc0 : 0 ≤ c) (hc1 : c ≤ 1) :
    (0 ≤ dielectricFresnelSchlick c IoR ∧ dielectricFresnelSchlick c IoR ≤ 1) ∧
    (0 ≤ dielectricFresnel c IoR ∧ dielectricFresnel c IoR ≤ 1) := by
  have hR0 : 0 ≤ schlickR0 IoR := mul_self_nonneg _
  have hR1 : schlickR0 IoR ≤ 1 := by
    unfold schlickR0
    rw [div_mul_div_comm, div_le_one (by positivity)]
    nlinarith
  have hkey : dielectricFresnelSchlick c IoR =
      schlickR0 IoR + (1 - schlickR0 IoR) *
        ((1 - c) * ((1 - c) * (1 - c)) * ((1 - c) * (1 - c))) := by
    unfold dielectricFresnelSchlick; ring
  have hs0 : 0 ≤ (1 - c) * ((1 - c) * (1 - c)) * ((1 - c) * (1 - c)) := by
    have h1 : 0 ≤ 1 - c := by linarith
    positivity
  have hs1 : (1 - c) * ((1 - c) * (1 - c)) * ((1 - c) * (1 - c)) ≤ 1 := by
    have h1 : 0 ≤ 1 - c := by linarith
    have h2 : 1 - c ≤ 1 := by linarith
    have h3 : (1 - c) * (1 - c) ≤ 1 := mul_le_one₀ h2 h1 h2
    have h4 : 0 ≤ (1 - c) * (1 - c) := mul_nonneg h1 h1
    have h5 : (1 - c) * ((1 - c) * (1 - c)) ≤ 1 := mul_le_one₀ h2 h4 h3
    have h6 : 0 ≤ (1 - c) * ((1 - c) * (1 - c)) := mul_nonneg h1 h4
    exact mul_le_one₀ h5 h4 h3
  constructor
  · constructor
    · rw [hkey]; nlinarith
    · rw [hkey]; nlinarith
  · by_cases hT : fresnelNdL2 c IoR ≤ 0
    · unfold dielectricFresnel; rw [if_pos hT]; norm_num
    · unfold dielectricFresnel; rw [if_neg hT]
      have hL2 : 0 < fresnelNdL2 c IoR := not_le.mp hT
      have hsq : 0 < Real.sqrt (fresnelNdL2 c IoR) := Real.sqrt_pos.mpr hL2
      have hA : 0 < IoR * Real.sqrt (fresnelNdL2 c IoR) := mul_pos hIoR hsq
      have hB : (0:ℝ) ≤ |c| := abs_nonneg c
      have hRp2 : fresnelRp c IoR * fresnelRp c IoR ≤ 1 := by
        unfold fresnelRp
        exact ratioSqLeOne _ _ hA.le hB (by linarith)
      have hRs2 : fresnelRs c IoR * fresnelRs c IoR ≤ 1 := by
        unfold fresnelRs
        exact ratioSqLeOne _ _ hB hA.le (by linarith)
      constructor
      · nlinarith [mul_self_nonneg (fresnelRp c IoR), mul_self_nonneg (fresnelRs c IoR)]
      · nlinarith [hRp2, hRs2]

/-- Witness for claim C2 at cosine one half and IoR two. -/
theorem claim2_witness :
    (0 ≤ dielectricFresnelSchlick (1/2) 2 ∧ dielectricFresnelSchlick (1/2) 2 ≤ 1) ∧
    (0 ≤ dielectricFresnel (1/2) 2 ∧ dielectricFresnel (1/2) 2 ≤ 1) :=
  claim2_fresnel_unit_interval (1/2) 2 (by norm_num) (by norm_num) (by norm_num)

/-- Claim C3 (amended): GSmith returns exactly 0 whenever the back-facing
test dot(dir,h) times dir.z is non-positive, and returns exactly 1 when
that test passes while the direction satisfies 1 - dir.z^2 ≤ 0. -/
theorem claim3_gsmith_short_circuits (dir h : Vec3) (rghns : Vec2) (ndfType : ℕ) :
    (dot3 dir h * dir.z ≤ 0 → GSmith dir h rghns ndfType = 0) ∧
    (0 < dot3 dir h * dir.z → 1 - dir.z * dir.z ≤ 0 →
      GSmith dir h rghns ndfType = 1) := by
  constructor
  · intro hback
    unfold GSmith
    rw [if_pos hback]
  · intro hface hgraze
    unfold GSmith
    rw [if_neg (not_le.mpr hface), if_pos hgraze]

/-- Witness for claim C3: the first short circuit at a back-facing
half-vector, the second at a direction aligned with the normal. -/
theorem claim3_witness :
    GSmith ⟨0, 0, 1⟩ ⟨0, 0, -1⟩ ⟨1/2, 1/2⟩ 0 = 0 ∧
    GSmith ⟨0, 0, 1⟩ ⟨0, 0, 1⟩ ⟨1/2, 1/2⟩ 0 = 1 :=
  ⟨(claim3_gsmith_short_circuits ⟨0, 0, 1⟩ ⟨0, 0, -1⟩ ⟨1/2, 1/2⟩ 0).1
      (by norm_num [dot3]),
   (claim3_gsmith_short_circuits ⟨0, 0, 1⟩ ⟨0, 0, 1⟩ ⟨1/2, 1/2⟩ 0).2
      (by norm_num [dot3]) (by norm_num)⟩

/-- Counterexample to claim C3 as stated: at dir = (0,0,1) and
h = (0,0,-1) the condition 1 - dir.z^2 ≤ 0 holds, yet GSmith returns 0
rather than 1, because the back-facing test fires first. -/
theorem claim3_counterexample :
    1 - (⟨0, 0, 1⟩ : Vec3).z * (⟨0, 0, 1⟩ : Vec3).z ≤ 0 ∧
    GSmith ⟨0, 0, 1⟩ ⟨0, 0, -1⟩ ⟨1/2, 1/2⟩ 0 = 0 ∧
    GSmith ⟨0, 0, 1⟩ ⟨0, 0, -1⟩ ⟨1/2, 1/2⟩ 0 ≠ 1 := by
  have h0 : GSmith ⟨0, 0, 1⟩ ⟨0, 0, -1⟩ ⟨1/2, 1/2⟩ 0 = 0 := by
    unfold GSmith
    rw [if_pos (by norm_num [dot3])]
  refine ⟨by norm_num, h0, ?_⟩
  rw [h0]; norm_num

/-- Claim C4: whenever the refraction radicand is non-positive, with the
effective index chosen as the reciprocal of IoR for a non-negative cosine
and as IoR otherwise, dielectricFresnel returns exactly 1. -/
theorem claim4_tir_returns_one (NdE IoR : ℝ)
    (h : 1 - (if NdE ≥ 0 then 1 / IoR else IoR) *
      (if NdE ≥ 0 then 1 / IoR else IoR) * (1 - NdE * NdE) ≤ 0) :
    dielectricFresnel NdE IoR = 1 := by
  unfold dielectricFresnel
  rw [if_pos]
  exact h

/-- Witness for claim C4 at a grazing cosine of 0 and IoR one half: the
radicand is negative and the function returns exactly 1. -/
theorem claim4_witness : dielectricFresnel 0 (1/2) = 1 :=
  claim4_tir_returns_one 0 (1/2) (by norm_num)

/-- Claim C5: the isotropic Beckmann exponent is clamped to be
non-negative, and the anisotropic exponent is non-negative whenever the
z component of the half-vector is non-zero, so in both forms the exponential
factor is at most 1. -/
theorem claim5_beckmann_exponent_bounded (N H : Vec3) (roughness : ℝ)
    (Ha : Vec3) (rgns : Vec2) (hz : Ha.z ≠ 0) :
    (0 ≤ beckmannIsoExponent N H roughness ∧
      Real.exp (-beckmannIsoExponent N H roughness) ≤ 1) ∧
    (0 ≤ beckmannAnisoExponent Ha rgns ∧
      Real.exp (-beckmannAnisoExponent Ha rgns) ≤ 1) := by
  have h1 : 0 ≤ beckmannIsoExponent N H roughness := le_max_left _ _
  have h2 : 0 ≤ beckmannAnisoExponent Ha rgns := by
    have e : beckmannAnisoExponent Ha rgns =
        (Ha.x ^ 2 / rgns.x ^ 2 + Ha.y ^ 2 / rgns.y ^ 2) / Ha.z ^ 2 := by
      unfold beckmannAnisoExponent; ring
    rw [e]; positivity
  have key : ∀ e : ℝ, 0 ≤ e → Real.exp (-e) ≤ 1 := by
    intro e he
    calc Real.exp (-e) ≤ Real.exp 0 := Real.exp_le_exp.mpr (by linarith)
    _ = 1 := Real.exp_zero
  exact ⟨⟨h1, key _ h1⟩, ⟨h2, key _ h2⟩⟩

/-- Witness for claim C5 at a concrete upper-hemisphere half-vector. -/
theorem claim5_witness :
    0 ≤ beckmannAnisoExponent ⟨0, 0, 1⟩ ⟨1/2, 1/2⟩ ∧
    Real.exp (-beckmannAnisoExponent ⟨0, 0, 1⟩ ⟨1/2, 1/2⟩) ≤ 1 :=
  (claim5_beckmann_exponent_bounded ⟨0, 0, 1⟩ ⟨0, 0, 1⟩ (1/2) ⟨0, 0, 1⟩ ⟨1/2, 1/2⟩
    (by norm_num)).2

/-- Claim C6 (amended): effectiveVisibleRoughness divides by the divisor
1 - dir.z^2; that divisor vanishes exactly at dir.z = ±1 (the singular
case) and equals 1 at dir.z = 0 (the safe case). -/
theorem claim6_divisor (dir : Vec3) (rghns : Vec2) :
    effectiveVisibleRoughness dir rghns =
      Real.sqrt (rghns.x * rghns.x * (dir.x * dir.x * (1 / effDivisor dir)) +
        rghns.y * rghns.y * (dir.y * dir.y * (1 / effDivisor dir))) ∧
    (dir.z = 1 ∨ dir.z = -1 → effDivisor dir = 0) ∧
    (dir.z = 0 → effDivisor dir = 1) := by
  refine ⟨rfl, ?_, ?_⟩
  · rintro (hz | hz) <;> simp [effDivisor, hz]
  · intro hz; simp [effDivisor, hz]

/-- Witness for claim C6 at the two concrete directions (0,0,1)
and (1,0,0). -/
theorem claim6_witness :
    effDivisor ⟨0, 0, 1⟩ = 0 ∧ effDivisor ⟨1, 0, 0⟩ = 1 :=
  ⟨(claim6_divisor ⟨0, 0, 1⟩ ⟨0, 0⟩).2.1 (Or.inl rfl),
   (claim6_divisor ⟨1, 0, 0⟩ ⟨0, 0⟩).2.2 rfl⟩

/-- Counterexample to claim C6 as stated: the unit direction (0,0,1) has
dir.z = 1 and its divisor is exactly 0 (not non-zero), while at the unit
direction (1,0,0) with dir.z = 0 the divisor is 1 (not zero): the claim
swaps the safe and singular cases. -/
theorem claim6_counterexample :
    dot3 ⟨0, 0, 1⟩ ⟨0, 0, 1⟩ = 1 ∧ effDivisor ⟨0, 0, 1⟩ = 0 ∧
    dot3 ⟨1, 0, 0⟩ ⟨1, 0, 0⟩ = 1 ∧ effDivisor ⟨1, 0, 0⟩ = 1 := by
  norm_num [dot3, effDivisor]

/-- Claim C10: for positive roughness and a unit half-vector in the upper
hemisphere, the isotropic GGX NDF evaluated with normal (0,0,1) agrees
with the anisotropic GGX NDF at equal roughness components. -/
theorem claim10_ggx_iso_aniso_agree (r : ℝ) (H : Vec3) (hr : 0 < r)
    (hunit : H.x * H.x + H.y * H.y + H.z * H.z = 1) (hz : 0 ≤ H.z) :
    evalGGXDistribution ⟨0, 0, 1⟩ H r = evalGGXDistributionAniso H ⟨r, r⟩ := by
  have hdot : dot3 ⟨0, 0, 1⟩ H = H.z := by simp [dot3]
  have hz1 : H.z ≤ 1 := by nlinarith
  have hsat : saturate (dot3 ⟨0, 0, 1⟩ H) = H.z := by
    rw [hdot]; unfold saturate
    rw [max_eq_right hz, min_eq_right hz1]
  have hU : ggxAnisoU ⟨r, r⟩ = 1 := by simp [ggxAnisoU]
  have hV : ggxAnisoV ⟨r, r⟩ = 1 := by simp [ggxAnisoV]
  have hroot : ggxAnisoRoot H ⟨r, r⟩ = ggxDdenom ⟨0, 0, 1⟩ H r := by
    simp only [ggxAnisoRoot, ggxDdenom, hU, hV, hsat, min_self]
    linear_combination hunit
  unfold evalGGXDistribution evalGGXDistributionAniso
  rw [hroot, hU, hV]
  simp only [min_self]
  ring

/-- Witness for claim C10 at roughness one half and half-vector (0,0,1). -/
theorem claim10_witness :
    evalGGXDistribution ⟨0, 0, 1⟩ ⟨0, 0, 1⟩ (1/2) =
      evalGGXDistributionAniso ⟨0, 0, 1⟩ ⟨1/2, 1/2⟩ :=
  claim10_ggx_iso_aniso_agree (1/2) ⟨0, 0, 1⟩ (by norm_num) (by norm_num) (by norm_num)

/-- Claim C1 (amended): on the success path (reflected wi strictly above
the surface and clamped half-vector pdf strictly positive), both samplers
output the half-vector-space density divided by the Cook-Torrance
Jacobian 4 dot(wi,m), and the returned weight equals the NDF value times
dot(wo,m) over the pre-Jacobian pdf times wo.z; on the failure path the
output pdf is not Jacobian-corrected. -/
theorem claim1_jacobian_and_weight (wo : Vec3) (roughness rSample : Vec2) :
    (0 < (beckmannWi wo roughness rSample).z →
      0 < clampPdf (beckmannPdfH roughness rSample) →
      (sampleBeckmannDistribution wo roughness rSample).pdf =
        clampPdf (beckmannPdfH roughness rSample) /
          (4 * dot3 (beckmannWi wo roughness rSample) (beckmannM roughness rSample)) ∧
      (sampleBeckmannDistribution wo roughness rSample).weight =
        evalBeckmannDistributionAniso (beckmannM roughness rSample) roughness *
          dot3 wo (beckmannM roughness rSample) /
          (clampPdf (beckmannPdfH roughness rSample) * wo.z)) ∧
    (0 < (ggxWi wo roughness rSample).z →
      0 < clampPdf (ggxPdfH roughness rSample) →
      (sampleGGXDistribution wo roughness rSample).pdf =
        clampPdf (ggxPdfH roughness rSample) /
          (4 * dot3 (ggxWi wo roughness rSample) (ggxM roughness rSample)) ∧
      (sampleGGXDistribution wo roughness rSample).weight =
        evalGGXDistributionAniso (ggxM roughness rSample) roughness *
          dot3 wo (ggxM roughness rSample) /
          (clampPdf (ggxPdfH roughness rSample) * wo.z)) := by
  constructor
  · intro h1 h2
    rw [sampleBeckmann_success wo roughness rSample h1 h2]
    exact ⟨rfl, rfl⟩
  · intro h1 h2
    rw [sampleGGX_success wo roughness rSample h1 h2]
    exact ⟨rfl, rfl⟩

/-- Witness for claim C1 on the GGX success path at the standard sample
point. -/
theorem claim1_witness :
    (sampleGGXDistribution ⟨0, 0, 1⟩ ⟨1/2, 1/2⟩ ⟨1/2, 0⟩).pdf =
      clampPdf (ggxPdfH ⟨1/2, 1/2⟩ ⟨1/2, 0⟩) /
        (4 * dot3 (ggxWi ⟨0, 0, 1⟩ ⟨1/2, 1/2⟩ ⟨1/2, 0⟩) (ggxM ⟨1/2, 1/2⟩ ⟨1/2, 0⟩)) ∧
    (sampleGGXDistribution ⟨0, 0, 1⟩ ⟨1/2, 1/2⟩ ⟨1/2, 0⟩).weight =
      evalGGXDistributionAniso (ggxM ⟨1/2, 1/2⟩ ⟨1/2, 0⟩) ⟨1/2, 1/2⟩ *
        dot3 ⟨0, 0, 1⟩ (ggxM ⟨1/2, 1/2⟩ ⟨1/2, 0⟩) /
        (clampPdf (ggxPdfH ⟨1/2, 1/2⟩ ⟨1/2, 0⟩) * (⟨0, 0, 1⟩ : Vec3).z) :=
  (claim1_jacobian_and_weight ⟨0, 0, 1⟩ ⟨1/2, 1/2⟩ ⟨1/2, 0⟩).2
    (by rw [ggxWi_up_z]; norm_num) ggxClamp_std_pos

/-- Counterexample to claim C1 as stated: at wo = (0,0,-1), roughness one
half, sample (1/2, 0), the GGX sampler takes the failure path (weight 0)
and outputs the positive half-vector density as pdf, which differs from
that density divided by 4 dot(wi,m) because the latter is negative there. -/
theorem claim1_counterexample :
    (sampleGGXDistribution ⟨0, 0, -1⟩ ⟨1/2, 1/2⟩ ⟨1/2, 0⟩).pdf ≠
      ggxPdfH ⟨1/2, 1/2⟩ ⟨1/2, 0⟩ /
        (4 * dot3 (sampleGGXDistribution ⟨0, 0, -1⟩ ⟨1/2, 1/2⟩ ⟨1/2, 0⟩).wi
          (sampleGGXDistribution ⟨0, 0, -1⟩ ⟨1/2, 1/2⟩ ⟨1/2, 0⟩).m) := by
  have hfail := sampleGGX_fail ⟨0, 0, -1⟩ ⟨1/2, 1/2⟩ ⟨1/2, 0⟩
    (Or.inl (by rw [ggxWi_down_z]; norm_num))
  rw [hfail]
  dsimp only
  rw [ggxClamp_std]
  have hdot : dot3 (ggxWi ⟨0, 0, -1⟩ ⟨1/2, 1/2⟩ ⟨1/2, 0⟩) (ggxM ⟨1/2, 1/2⟩ ⟨1/2, 0⟩)
      = -1 * (ggxM ⟨1/2, 1/2⟩ ⟨1/2, 0⟩).z := by
    unfold ggxWi
    exact dot3_reflect_vertical (-1) _ ggxM_std_unit
  rw [hdot, ggxM_std_z]
  have hc0 : 0 < cosThetaOf (1/4) := cosThetaOf_pos _ (by norm_num)
  have hpos : 0 < ggxPdfH ⟨1/2, 1/2⟩ ⟨1/2, 0⟩ :=
    lt_of_lt_of_le (by norm_num) ggxPdfH_std_ge
  have hneg : ggxPdfH ⟨1/2, 1/2⟩ ⟨1/2, 0⟩ / (4 * (-1 * cosThetaOf (1/4))) < 0 := by
    apply div_neg_of_pos_of_neg hpos
    linarith
  intro heq
  rw [← heq] at hneg
  linarith

/-- Claim C7: both samplers clamp a half-vector pdf below 1e-20 to an
output pdf of exactly 0, and return weight exactly 0 whenever the
reflected direction is at or below the surface or the clamped pdf is
non-positive; both facts hold without any internal retry. -/
theorem claim7_sampler_edge_policy (wo : Vec3) (roughness rSample : Vec2) :
    (beckmannPdfH roughness rSample < 1e-20 →
      (sampleBeckmannDistribution wo roughness rSample).pdf = 0) ∧
    ((beckmannWi wo roughness rSample).z ≤ 0 ∨
        clampPdf (beckmannPdfH roughness rSample) ≤ 0 →
      (sampleBeckmannDistribution wo roughness rSample).weight = 0) ∧
    (ggxPdfH roughness rSample < 1e-20 →
      (sampleGGXDistribution wo roughness rSample).pdf = 0) ∧
    ((ggxWi wo roughness rSample).z ≤ 0 ∨
        clampPdf (ggxPdfH roughness rSample) ≤ 0 →
      (sampleGGXDistribution wo roughness rSample).weight = 0) := by
  refine ⟨?_, ?_, ?_, ?_⟩
  · intro hp
    have h0 : clampPdf (beckmannPdfH roughness rSample) = 0 := by
      unfold clampPdf
      rw [if_pos hp]
    rw [sampleBeckmann_fail wo roughness rSample (Or.inr (le_of_eq h0))]
    exact h0
  · intro hcond
    rw [sampleBeckmann_fail wo roughness rSample hcond]
  · intro hp
    have h0 : clampPdf (ggxPdfH roughness rSample) = 0 := by
      unfold clampPdf
      rw [if_pos hp]
    rw [sampleGGX_fail wo roughness rSample (Or.inr (le_of_eq h0))]
    exact h0
  · intro hcond
    rw [sampleGGX_fail wo roughness rSample hcond]

/-- Witness for claim C7: at wo = (0,0,-1) both samplers reflect below
the surface and return weight exactly 0. -/
theorem claim7_witness :
    (sampleBeckmannDistribution ⟨0, 0, -1⟩ ⟨1/2, 1/2⟩ ⟨1/2, 0⟩).weight = 0 ∧
    (sampleGGXDistribution ⟨0, 0, -1⟩ ⟨1/2, 1/2⟩ ⟨1/2, 0⟩).weight = 0 :=
  ⟨(claim7_sampler_edge_policy ⟨0, 0, -1⟩ ⟨1/2, 1/2⟩ ⟨1/2, 0⟩).2.1
      (Or.inl beckmannWi_down_z_nonpos),
   (claim7_sampler_edge_policy ⟨0, 0, -1⟩ ⟨1/2, 1/2⟩ ⟨1/2, 0⟩).2.2.2
      (Or.inl (by rw [ggxWi_down_z]; norm_num))⟩

/-- Claim C8: at wo = (0,0,1), roughness one half, sample (1/2, 0), both
samplers return an incident direction above the surface, a positive pdf,
and a non-negative weight. -/
theorem claim8_concrete_sample_valid :
    (0 < (sampleBeckmannDistribution ⟨0, 0, 1⟩ ⟨1/2, 1/2⟩ ⟨1/2, 0⟩).wi.z ∧
      0 < (sampleBeckmannDistribution ⟨0, 0, 1⟩ ⟨1/2, 1/2⟩ ⟨1/2, 0⟩).pdf ∧
      0 ≤ (sampleBeckmannDistribution ⟨0, 0, 1⟩ ⟨1/2, 1/2⟩ ⟨1/2, 0⟩).weight) ∧
    (0 < (sampleGGXDistribution ⟨0, 0, 1⟩ ⟨1/2, 1/2⟩ ⟨1/2, 0⟩).wi.z ∧
      0 < (sampleGGXDistribution ⟨0, 0, 1⟩ ⟨1/2, 1/2⟩ ⟨1/2, 0⟩).pdf ∧
      0 ≤ (sampleGGXDistribution ⟨0, 0, 1⟩ ⟨1/2, 1/2⟩ ⟨1/2, 0⟩).weight) := by
  constructor
  · rw [sampleBeckmann_success ⟨0, 0, 1⟩ ⟨1/2, 1/2⟩ ⟨1/2, 0⟩ beckmannWi_up_z_pos
      beckmannClamp_std_pos]
    dsimp only
    have hc0 : 0 < cosThetaOf (Real.log 2 / 4) := by
      apply cosThetaOf_pos
      have := log_two_bounds.1
      positivity
    have hdotwi : dot3 (beckmannWi ⟨0, 0, 1⟩ ⟨1/2, 1/2⟩ ⟨1/2, 0⟩)
        (beckmannM ⟨1/2, 1/2⟩ ⟨1/2, 0⟩) = 1 * (beckmannM ⟨1/2, 1/2⟩ ⟨1/2, 0⟩).z := by
      unfold beckmannWi
      exact dot3_reflect_vertical 1 _ beckmannM_std_unit
    have hdotwo : dot3 ⟨0, 0, 1⟩ (beckmannM ⟨1/2, 1/2⟩ ⟨1/2, 0⟩)
        = 1 * (beckmannM ⟨1/2, 1/2⟩ ⟨1/2, 0⟩).z := dot3_vertical 1 _
    have hD : 0 < evalBeckmannDistributionAniso (beckmannM ⟨1/2, 1/2⟩ ⟨1/2, 0⟩) ⟨1/2, 1/2⟩ :=
      beckmannD_half_pos _ (by rw [beckmannM_std_z]; exact ne_of_gt hc0)
    refine ⟨beckmannWi_up_z_pos, ?_, ?_⟩
    · apply div_pos beckmannClamp_std_pos
      rw [hdotwi, beckmannM_std_z]
      linarith
    · apply le_of_lt
      apply div_pos
      · apply mul_pos hD
        rw [hdotwo, beckmannM_std_z]
        linarith
      · rw [mul_one]
        exact beckmannClamp_std_pos
  · rw [sampleGGX_success ⟨0, 0, 1⟩ ⟨1/2, 1/2⟩ ⟨1/2, 0⟩
      (by rw [ggxWi_up_z]; norm_num) ggxClamp_std_pos]
    dsimp only
    have hc0 : 0 < cosThetaOf (1/4) := cosThetaOf_pos _ (by norm_num)
    have hdotwi : dot3 (ggxWi ⟨0, 0, 1⟩ ⟨1/2, 1/2⟩ ⟨1/2, 0⟩)
        (ggxM ⟨1/2, 1/2⟩ ⟨1/2, 0⟩) = 1 * (ggxM ⟨1/2, 1/2⟩ ⟨1/2, 0⟩).z := by
      unfold ggxWi
      exact dot3_reflect_vertical 1 _ ggxM_std_unit
    have hdotwo : dot3 ⟨0, 0, 1⟩ (ggxM ⟨1/2, 1/2⟩ ⟨1/2, 0⟩)
        = 1 * (ggxM ⟨1/2, 1/2⟩ ⟨1/2, 0⟩).z := dot3_vertical 1 _
    have hD : 0 < evalGGXDistributionAniso (ggxM ⟨1/2, 1/2⟩ ⟨1/2, 0⟩) ⟨1/2, 1/2⟩ :=
      ggxD_half_pos _ (by rw [ggxM_std_z]; exact ne_of_gt hc0)
    refine ⟨by rw [ggxWi_up_z]; norm_num, ?_, ?_⟩
    · apply div_pos ggxClamp_std_pos
      rw [hdotwi, ggxM_std_z]
      linarith
    · apply le_of_lt
      apply div_pos
      · apply mul_pos hD
        rw [hdotwo, ggxM_std_z]
        linarith
      · rw [mul_one]
        exact ggxClamp_std_pos

/-- Claim C9: for positive roughness.x and random components in the unit
half-open interval, both samplers produce a unit microfacet normal with
positive z, and the outputs m, wi, and pdf are written, with the stated
values, even on the failure path where the returned weight is 0. -/
theorem claim9_sampler_outputs (wo : Vec3) (roughness rSample : Vec2)
    (hrx : 0 < roughness.x) (hx0 : 0 ≤ rSample.x) (hx1 : rSample.x < 1)
    (hy0 : 0 ≤ rSample.y) (hy1 : rSample.y < 1) :
    ((sampleBeckmannDistribution wo roughness rSample).m.x *
        (sampleBeckmannDistribution wo roughness rSample).m.x +
      (sampleBeckmannDistribution wo roughness rSample).m.y *
        (sampleBeckmannDistribution wo roughness rSample).m.y +
      (sampleBeckmannDistribution wo roughness rSample).m.z *
        (sampleBeckmannDistribution wo roughness rSample).m.z = 1 ∧
      0 < (sampleBeckmannDistribution wo roughness rSample).m.z) ∧
    ((sampleGGXDistribution wo roughness rSample).m.x *
        (sampleGGXDistribution wo roughness rSample).m.x +
      (sampleGGXDistribution wo roughness rSample).m.y *
        (sampleGGXDistribution wo roughness rSample).m.y +
      (sampleGGXDistribution wo roughness rSample).m.z *
        (sampleGGXDistribution wo roughness rSample).m.z = 1 ∧
      0 < (sampleGGXDistribution wo roughness rSample).m.z) ∧
    ((beckmannWi wo roughness rSample).z ≤ 0 ∨
        clampPdf (beckmannPdfH roughness rSample) ≤ 0 →
      sampleBeckmannDistribution wo roughness rSample =
        ⟨beckmannM roughness rSample, beckmannWi wo roughness rSample,
          clampPdf (beckmannPdfH roughness rSample), 0⟩) ∧
    ((ggxWi wo roughness rSample).z ≤ 0 ∨
        clampPdf (ggxPdfH roughness rSample) ≤ 0 →
      sampleGGXDistribution wo roughness rSample =
        ⟨ggxM roughness rSample, ggxWi wo roughness rSample,
          clampPdf (ggxPdfH roughness rSample), 0⟩) := by
  have htB := beckmannTan_nonneg roughness rSample hx0 hx1
  have htG := ggxTan_nonneg roughness rSample hx0 hx1
  have hBm := (sampleBeckmann_outputs wo roughness rSample).1
  have hGm := (sampleGGX_outputs wo roughness rSample).1
  have hcB0 := cosThetaOf_pos _ htB
  have hcB1 := cosThetaOf_le_one _ htB
  have hcG0 := cosThetaOf_pos _ htG
  have hcG1 := cosThetaOf_le_one _ htG
  refine ⟨⟨?_, ?_⟩, ⟨?_, ?_⟩, sampleBeckmann_fail wo roughness rSample,
    sampleGGX_fail wo roughness rSample⟩
  · rw [hBm]
    unfold beckmannM
    exact microNormal_unit _ _ (by nlinarith)
  · rw [hBm]
    unfold beckmannM
    rw [microNormal_z]
    exact hcB0
  · rw [hGm]
    unfold ggxM
    exact microNormal_unit _ _ (by nlinarith)
  · rw [hGm]
    unfold ggxM
    rw [microNormal_z]
    exact hcG0

/-- Witness for claim C9 at the standard concrete input. -/
theorem claim9_witness :
    (sampleBeckmannDistribution ⟨0, 0, 1⟩ ⟨1/2, 1/2⟩ ⟨1/2, 0⟩).m.x *
        (sampleBeckmannDistribution ⟨0, 0, 1⟩ ⟨1/2, 1/2⟩ ⟨1/2, 0⟩).m.x +
      (sampleBeckmannDistribution ⟨0, 0, 1⟩ ⟨1/2, 1/2⟩ ⟨1/2, 0⟩).m.y *
        (sampleBeckmannDistribution ⟨0, 0, 1⟩ ⟨1/2, 1/2⟩ ⟨1/2, 0⟩).m.y +
      (sampleBeckmannDistribution ⟨0, 0, 1⟩ ⟨1/2, 1/2⟩ ⟨1/2, 0⟩).m.z *
        (sampleBeckmannDistribution ⟨0, 0, 1⟩ ⟨1/2, 1/2⟩ ⟨1/2, 0⟩).m.z = 1 ∧
    0 < (sampleBeckmannDistribution ⟨0, 0, 1⟩ ⟨1/2, 1/2⟩ ⟨1/2, 0⟩).m.z :=
  (claim9_sampler_outputs ⟨0, 0, 1⟩ ⟨1/2, 1/2⟩ ⟨1/2, 0⟩ (by norm_num) (by norm_num)
    (by norm_num) (by norm_num) (by norm_num)).1

end
